import Mathlib

/-
  Shallow embedding of the wave-spectrum-estimation pipeline
  (Signaloid-Demo-NavalEngineering-WaveSpectrumEstimation).

  Sources embedded:
    - src/src/utils.c            (Buffer, extendHeapBuffer, subtractMean, numericalIntegration)
    - src/src/signalProcessing.c (roundUpToNextHighestPowerOfTwo, dit2FFT, fft,
                                  periodogram, calculatePowerSpectrum)
    - src/src/waveEstimation.c   (elementWiseDivide, calculateRAO, calculateWaveEnergySpectrum)
    - src/src/main.c             (applyUncertainty, characteriseRAO, estimateWaveSpectrum)

  Modelling conventions:
    - IEEE-754 single-precision sample values are modelled as exact rationals (ℚ).
      The claims settled here are structural (lengths, data flow, control flow,
      which samples feed which computation, error paths), not about rounding.
    - Transcendental float operations are abstracted as parameters collected in
      a `Collaborators` record: `cis θ` stands for (cosf θ, sinf θ) as computed by
      `complexExponent`, `sqrtQ` for `sqrtf`, `PI` for the double constant `acos(-1)`.
      All structural theorems are proved for every instantiation of these.
    - `libUncertainFloatUniformDist` (the uncertainty-sampling collaborator of the
      excluded platform layer) is abstracted as `sampleUniform lower upper`.
    - A heap buffer `float *` with its logical size is modelled as a Lean list;
      `reallocarray` growth exposes the contents of the freshly allocated cells as
      the abstract function `junkQ` / `junkE` (C leaves them uninitialized, so any
      value can be observed there; theorems quantify over or instantiate these).
    - `+INFINITY`, producible by `elementWiseDivide`, is modelled as `⊤` in
      `WithTop ℚ`; all other pipeline values are finite.
    - File ingestion (readFloatsFromFileToHeapBuffer) is out of scope per the spec:
      pipeline entry points take the ingested sample list directly.
-/

namespace WaveDemo

/-- Extended float value: a finite rational or `+INFINITY` (`⊤`). -/
abbrev EFloat := WithTop ℚ

/-- Error kinds of the pipeline, following §7 of the spec.  The C code reports these
as distinct printf diagnostics plus return code 1; the constructor arguments mirror
the data printed in the diagnostic. -/
inductive PipelineError where
  | outOfMemory
  | lengthMismatch (heaveLength waveLength : Nat)
  | sizeOverflow (foundLength : Nat)
deriving DecidableEq

/-! ## utils.c -/

/-- Embeds `extendHeapBuffer` (src/src/utils.c:157-179), with allocation assumed to
succeed.  `newSize <= buf->size` is a no-op returning 0.  Otherwise the buffer grows
to `newSize` via `reallocarray`, which preserves the first `buf->size` elements and
leaves the new cells uninitialized: the value observed in fresh cell `i` (counting
from the old end) is modelled as `junk i`. -/
def extendHeapBuffer {α : Type} (junk : Nat → α) (buf : List α) (newSize : Nat) : List α :=
  if newSize ≤ buf.length then buf
  else buf ++ (List.range (newSize - buf.length)).map junk

/-- Embeds `subtractMean` (src/src/utils.c): subtract the arithmetic mean from every
element.  For the empty buffer the C code divides 0 by 0 but touches no element; here
`0 / 0 = 0` in ℚ and the map is empty, so both yield the empty buffer. -/
def subtractMean (buf : List ℚ) : List ℚ :=
  let mean := buf.sum / (buf.length : ℚ)
  buf.map (fun v => v - mean)

/-- State of the double integrator: position and speed, as in the `State` struct of
the (absent) integrate.h. -/
structure State where
  position : ℚ
  speed : ℚ
deriving DecidableEq

/-- Modelled from the spec: the function `integrate` lives in `integrate.h` /
`integrate.c`, which is not part of src/; only its caller `numericalIntegration`
(src/src/utils.c) is.  Per spec §4.4 it performs one step of cascaded trapezoidal
integration:
  `speed[i]    = speed[i-1]    + dt * (accel[i-1] + accel[i]) / 2`
  `position[i] = position[i-1] + dt * (speed[i-1] + speed[i]) / 2`. -/
def integrate (oldState : State) (newAcceleration oldAcceleration dt : ℚ) : State :=
  let newSpeed := oldState.speed + dt * (oldAcceleration + newAcceleration) / 2
  { speed := newSpeed
    position := oldState.position + dt * (oldState.speed + newSpeed) / 2 }

/-- The loop of `numericalIntegration` (src/src/utils.c:187-212), returning the
successive integrator states.  The loop starts from `oldState = {position 0, speed 0}`
and `oldAcceleration = 0`, and each iteration calls `integrate` on the current sample
and the previous one. -/
def integrationStates (dt : ℚ) : State → ℚ → List ℚ → List State
  | _, _, [] => []
  | oldState, oldAcceleration, a :: rest =>
    let newState := integrate oldState a oldAcceleration dt
    newState :: integrationStates dt newState a rest

/-- Embeds `numericalIntegration` (src/src/utils.c:187-212): overwrite the
acceleration series in place with the doubly-integrated positions, then subtract the
mean.  Initial values as in the C code: `oldState = {0, 0}`, `oldAcceleration = 0`. -/
def numericalIntegration (timeSeriesData : List ℚ) (dt : ℚ) : List ℚ :=
  subtractMean ((integrationStates dt ⟨0, 0⟩ 0 timeSeriesData).map State.position)

/-- Modelled from the spec: `integrate_motion` as the spec §4.4 words it, with
`accel[-1]` treated as the first sample's own acceleration (the fictitious prior
acceleration equals `accel[0]`).  Used only to compare against the code's
`numericalIntegration`, whose prior acceleration starts at 0. -/
def integrateMotionSpec (accel : List ℚ) (dt : ℚ) : List ℚ :=
  match accel with
  | [] => []
  | a :: _ => subtractMean ((integrationStates dt ⟨0, 0⟩ a accel).map State.position)

/-! ## signalProcessing.c -/

/-- `SIZE_MAX` for the 64-bit `size_t` of the target platform. -/
def SIZE_MAX : Nat := 2 ^ 64 - 1

/-- Embeds the local constant `maximumArgument = SIZE_MAX / 2 + 1` of
`roundUpToNextHighestPowerOfTwo` (src/src/signalProcessing.c:120-140). -/
def maximumArgument : Nat := SIZE_MAX / 2 + 1

/-- The `while (returnValue < arg) returnValue *= 2;` loop of
`roundUpToNextHighestPowerOfTwo`, as a function of the loop variable `r`
(`returnValue`).  `r` starts at 1 and only doubles, so `0 < r` holds on every
reachable iteration; the conjunct makes termination evident and never changes the
reachable behaviour. -/
def roundUpLoop (arg r : Nat) : Nat :=
  if 0 < r ∧ r < arg then roundUpLoop arg (r * 2) else r
termination_by arg - r
decreasing_by omega

/-- Embeds `roundUpToNextHighestPowerOfTwo` (src/src/signalProcessing.c:120-140):
returns 0 (the overflow sentinel) for `arg >= maximumArgument`, else doubles 1 up to
the smallest power of two `>= arg`. -/
def roundUpToNextHighestPowerOfTwo (arg : Nat) : Nat :=
  if arg ≥ maximumArgument then 0 else roundUpLoop arg 1

/-- The `Complex` struct of src/src/signalProcessing.c. -/
structure Cx where
  real : ℚ
  imaginary : ℚ
deriving DecidableEq

/-- Embeds `complexAdd`. -/
def complexAdd (A B : Cx) : Cx :=
  ⟨A.real + B.real, A.imaginary + B.imaginary⟩

/-- Embeds `complexSubtract`. -/
def complexSubtract (A B : Cx) : Cx :=
  ⟨A.real - B.real, A.imaginary - B.imaginary⟩

/-- Embeds `complexMultiply`. -/
def complexMultiply (A B : Cx) : Cx :=
  ⟨A.real * B.real - A.imaginary * B.imaginary,
   A.real * B.imaginary + A.imaginary * B.real⟩

/-- Abstracted float collaborators of the embedding, see the header comment. -/
structure Collaborators where
  /-- `libUncertainFloatUniformDist lower upper` of the excluded platform layer. -/
  sampleUniform : ℚ → ℚ → ℚ
  /-- `complexExponent θ = (cosf θ, sinf θ)`. -/
  cis : ℚ → Cx
  /-- `sqrtf`. -/
  sqrtQ : ℚ → ℚ
  /-- The double constant `PI = acos(-1)`. -/
  PI : ℚ
  /-- Contents `reallocarray` leaves in fresh float cells. -/
  junkQ : Nat → ℚ
  /-- Contents `reallocarray` leaves in fresh cells of spectral-ratio buffers. -/
  junkE : Nat → EFloat

/-- Embeds `complexMagnitude`: `sqrtf(a*a + b*b)`. -/
def complexMagnitude (env : Collaborators) (A : Cx) : ℚ :=
  env.sqrtQ (A.real * A.real + A.imaginary * A.imaginary)

/-- Elements at even positions of a list: the subsequence `x[0], x[2], ...` that the
recursive call `dit2FFT(F, x, N/2, 2*stride)` operates on. -/
def evens {α : Type} : List α → List α
  | [] => []
  | [a] => [a]
  | a :: _ :: rest => a :: evens rest

/-- Elements at odd positions of a list: the subsequence `x[stride], x[3*stride], ...`
that the recursive call `dit2FFT(&F[N/2], &x[stride], N/2, 2*stride)` operates on. -/
def odds {α : Type} : List α → List α
  | [] => []
  | [_] => []
  | _ :: b :: rest => b :: odds rest

theorem evens_length {α : Type} : ∀ l : List α, (evens l).length = (l.length + 1) / 2
  | [] => by simp [evens]
  | [_] => by simp [evens]
  | _ :: _ :: rest => by
    simp only [evens, List.length_cons, evens_length rest]
    omega

theorem odds_length {α : Type} : ∀ l : List α, (odds l).length = l.length / 2
  | [] => by simp [odds]
  | [_] => by simp [odds]
  | _ :: _ :: rest => by
    simp only [odds, List.length_cons, odds_length rest]
    omega

/-- Embeds `dit2FFT` (src/src/signalProcessing.c:178-206 region), the recursive
radix-2 decimation-in-time FFT, rephrased over lists: the C routine's
(pointer, N, stride) views of the input become the even- and odd-position
subsequences, and the output buffer halves `F[0..N/2)`, `F[N/2..N)` become the two
halves of the returned list.  The twiddle factor `complexExponent(-2.0 * PI * k / N)`
is `env.cis (-2 * PI * k / N)`.  Base case `N == 1` copies the input. -/
def dit2FFT (env : Collaborators) (x : List Cx) : List Cx :=
  if x.length ≤ 1 then x
  else
    let N := x.length
    let E := dit2FFT env (evens x)
    let O := dit2FFT env (odds x)
    (List.range (N / 2)).map (fun k =>
      complexAdd (E.getD k ⟨0, 0⟩)
        (complexMultiply (env.cis (-2 * env.PI * k / N)) (O.getD k ⟨0, 0⟩))) ++
    (List.range (N / 2)).map (fun k =>
      complexSubtract (E.getD k ⟨0, 0⟩)
        (complexMultiply (env.cis (-2 * env.PI * k / N)) (O.getD k ⟨0, 0⟩)))
termination_by x.length
decreasing_by
  · rw [evens_length]; omega
  · rw [odds_length]; omega

/-- Embeds `fft` (src/src/signalProcessing.c): zero-pad the first `N` input samples
into a calloc'd complex buffer of `spectrumSize = roundUpToNextHighestPowerOfTwo N`
cells, run `dit2FFT`, and return the `spectrumSize` magnitudes.  Allocation is
assumed to succeed (the C function returns 1 only when calloc fails). -/
def fft (env : Collaborators) (x : List ℚ) (N : Nat) : List ℚ :=
  let spectrumSize := roundUpToNextHighestPowerOfTwo N
  let paddedX := (x.take N).map (fun r => (⟨r, 0⟩ : Cx)) ++
    List.replicate (spectrumSize - N) (⟨0, 0⟩ : Cx)
  let Fcplx := dit2FFT env paddedX
  (List.range spectrumSize).map (fun i => complexMagnitude env (Fcplx.getD i ⟨0, 0⟩))

/-- Embeds `periodogram` (src/src/signalProcessing.c:169-176): `S[i] = F[i] * F[i]`
for the `N` bins. -/
def periodogram (F : List ℚ) (N : Nat) : List ℚ :=
  (List.range N).map (fun i => F.getD i 0 * F.getD i 0)

/-- Embeds `calculatePowerSpectrum` (src/src/signalProcessing.c:142-167): magnitude
spectrum via `fft`, then elementwise squaring via `periodogram` over
`spectrumSize = roundUpToNextHighestPowerOfTwo N` bins.  Allocation is assumed to
succeed. -/
def calculatePowerSpectrum (env : Collaborators) (x : List ℚ) (N : Nat) : List ℚ :=
  let spectrumSize := roundUpToNextHighestPowerOfTwo N
  let frequencySpectrum := fft env x N
  periodogram frequencySpectrum spectrumSize

/-! ## waveEstimation.c -/

/-- Stores a finite float value into a spectral-ratio buffer cell. -/
def toEFloat (q : ℚ) : EFloat := WithTop.some q

/-- Embeds `elementWiseDivide` (src/src/waveEstimation.c:28-46):
`result[i] = INFINITY` when `denominator[i] == 0`, else
`numerator[i] / denominator[i]`.  Numerators occurring in the program (power spectra)
are always finite, hence `List ℚ`; denominators may be `+INFINITY` (the RAO is itself
a quotient), hence `List EFloat`.  `WithTop.untop' 0` extracts a finite denominator;
for a `⊤` denominator (which is `≠ 0`, so the else branch runs) it yields
`num / 0 = 0` in ℚ, exactly IEEE `finite / +INFINITY = 0`. -/
def elementWiseDivide (numerator : List ℚ) (denominator : List EFloat) (N : Nat) :
    List EFloat :=
  (List.range N).map (fun i =>
    if denominator.getD i 0 = 0 then (⊤ : EFloat)
    else toEFloat (numerator.getD i 0 / WithTop.untop' 0 (denominator.getD i 0)))

/-- Embeds `calculateRAO` (src/src/waveEstimation.c): elementwise division of the
heave spectrum by the wave spectrum.  Both arguments are power spectra (finite). -/
def calculateRAO (heaveSpectrum waveSpectrum : List ℚ) (N : Nat) : List EFloat :=
  elementWiseDivide heaveSpectrum (waveSpectrum.map toEFloat) N

/-- Embeds `calculateWaveEnergySpectrum` (src/src/waveEstimation.c): elementwise
division of the heave power spectrum by the RAO. -/
def calculateWaveEnergySpectrum (heaveSpectrum : List ℚ) (RAO : List EFloat)
    (N : Nat) : List EFloat :=
  elementWiseDivide heaveSpectrum RAO N

/-! ## main.c -/

/-- Embeds `applyUncertainty` (src/src/main.c): replace each value `v` with a draw
from `Uniform(v - uncertainty/2, v + uncertainty/2)` via the sampling collaborator. -/
def applyUncertainty (env : Collaborators) (buffer : List ℚ) (uncertainty : ℚ) :
    List ℚ :=
  buffer.map (fun value =>
    env.sampleUniform (value - uncertainty / 2) (value + uncertainty / 2))

/-- Embeds `characteriseRAO` (src/src/main.c:113-215), with file ingestion replaced
by the already-ingested sample lists (per spec §1 the CSV collaborator is out of
scope) and allocation assumed to succeed.  Returns the error, if any, and the final
contents of `RAOBuffer` (an in/out parameter in C).  On a length mismatch the
function returns before `spectrumBufferSize` is computed and before any
`extendHeapBuffer` call, so `RAOBuffer` is returned untouched.  On success,
`RAOBuffer` is extended to `spectrumBufferSize` and then fully overwritten by
`calculateRAO` over `RAOBuffer->size` bins. -/
def characteriseRAO (env : Collaborators) (RAOBuffer : List EFloat)
    (heaveDisplacement waveElevation : List ℚ)
    (heaveMeasurementUncertainty waveElevationMeasurementUncertainty
      measurementPeriod : ℚ) :
    Option PipelineError × List EFloat :=
  let _ := measurementPeriod
  if heaveDisplacement.length ≠ waveElevation.length then
    (some (.lengthMismatch heaveDisplacement.length waveElevation.length), RAOBuffer)
  else
    let spectrumBufferSize := roundUpToNextHighestPowerOfTwo heaveDisplacement.length
    let RAOBuffer' := extendHeapBuffer env.junkE RAOBuffer spectrumBufferSize
    let heave := applyUncertainty env heaveDisplacement heaveMeasurementUncertainty
    let wave := applyUncertainty env waveElevation waveElevationMeasurementUncertainty
    let heaveSpectrum := calculatePowerSpectrum env heave heave.length
    let waveSpectrum := calculatePowerSpectrum env wave wave.length
    (none, calculateRAO heaveSpectrum waveSpectrum RAOBuffer'.length)

/-- Composition of the first two stages of `estimateWaveSpectrum`: the contents of
`oceanHeaveBuffer` after `applyUncertainty` and `numericalIntegration`, i.e. the
integrated position series fed to the spectral stage. -/
def integratedPositionSeries (env : Collaborators) (heaveAcceleration : List ℚ)
    (accelerometerResolution accelerometerTimestep : ℚ) : List ℚ :=
  numericalIntegration (applyUncertainty env heaveAcceleration accelerometerResolution)
    accelerometerTimestep

/-- Embeds `estimateWaveSpectrum` (src/src/main.c:228-321), with file ingestion
replaced by the ingested acceleration list and allocation assumed to succeed.
Returns the error, if any, and the final contents of `waveSpectrumEstimateBuffer`
(an in/out parameter in C).  Control flow as in the C code: the sizing guard
`oceanHeaveBuffer.size > SIZE_MAX / 2` runs first; then uncertainty injection,
integration, zero-padding of the position buffer up to `RAOBuffer->size` when
shorter, extension of the spectrum buffers to `RAOBuffer->size`, the power spectrum
of the position buffer over `N = heaveSpectrumBuffer.size` samples, and the
elementwise division by the RAO over `RAOBuffer->size` bins. -/
def estimateWaveSpectrum (env : Collaborators)
    (waveSpectrumEstimateBuffer RAOBuffer : List EFloat)
    (heaveAcceleration : List ℚ)
    (accelerometerResolution accelerometerTimestep : ℚ) :
    Option PipelineError × List EFloat :=
  if heaveAcceleration.length > SIZE_MAX / 2 then
    (some (.sizeOverflow heaveAcceleration.length), waveSpectrumEstimateBuffer)
  else
    let oceanHeave₂ := integratedPositionSeries env heaveAcceleration
      accelerometerResolution accelerometerTimestep
    let oceanHeave₃ :=
      if oceanHeave₂.length < RAOBuffer.length then
        extendHeapBuffer env.junkQ oceanHeave₂ RAOBuffer.length
      else oceanHeave₂
    let heaveSpectrumBufferSize :=
      (extendHeapBuffer env.junkQ ([] : List ℚ) RAOBuffer.length).length
    let waveBufferExt :=
      extendHeapBuffer env.junkE waveSpectrumEstimateBuffer RAOBuffer.length
    let heaveSpectrum := calculatePowerSpectrum env oceanHeave₃ heaveSpectrumBufferSize
    (none,
      calculateWaveEnergySpectrum heaveSpectrum RAOBuffer RAOBuffer.length ++
        waveBufferExt.drop RAOBuffer.length)

/-- Concrete collaborator instantiation used by witnesses and counterexamples:
the uniform sampler returns the interval midpoint (so zero-width uncertainty is the
identity), `cis` is the constant `1 + 0i`, `sqrtQ` is the identity, `PI` is 0, and
fresh heap cells read as 0. -/
def testEnv : Collaborators where
  sampleUniform := fun lower upper => (lower + upper) / 2
  cis := fun _ => ⟨1, 0⟩
  sqrtQ := fun q => q
  PI := 0
  junkQ := fun _ => 0
  junkE := fun _ => 0

/-! ## Helper lemmas -/

theorem roundUpLoop_stop {arg r : Nat} (h : arg ≤ r) : roundUpLoop arg r = r := by
  rw [roundUpLoop]
  simp [Nat.not_lt.mpr h]

theorem roundUpLoop_step {arg r : Nat} (h0 : 0 < r) (h1 : r < arg) :
    roundUpLoop arg r = roundUpLoop arg (r * 2) := by
  conv_lhs => rw [roundUpLoop]
  simp [h0, h1]

/-- Characterisation of the doubling loop: started at `r > 0` it returns `r * 2 ^ j`
for the least `j` making that at least `arg`. -/
theorem roundUpLoop_spec (arg : Nat) :
    ∀ d r, arg - r ≤ d → 0 < r →
      ∃ j, roundUpLoop arg r = r * 2 ^ j ∧ arg ≤ r * 2 ^ j ∧
        ∀ i, arg ≤ r * 2 ^ i → j ≤ i := by
  intro d
  induction d with
  | zero =>
    intro r hd hr
    have hle : arg ≤ r := by omega
    exact ⟨0, by simpa using roundUpLoop_stop hle, by simpa using hle, fun i _ => Nat.zero_le i⟩
  | succ d ih =>
    intro r hd hr
    by_cases hlt : r < arg
    · have hd' : arg - r * 2 ≤ d := by omega
      obtain ⟨j, h1, h2, h3⟩ := ih (r * 2) hd' (by omega)
      refine ⟨j + 1, ?_, ?_, ?_⟩
      · rw [roundUpLoop_step hr hlt, h1]; ring
      · calc arg ≤ r * 2 * 2 ^ j := h2
          _ = r * 2 ^ (j + 1) := by ring
      · intro i hi
        match i with
        | 0 => simp at hi; omega
        | i' + 1 =>
          have hstep : arg ≤ r * 2 * 2 ^ i' := by
            rw [show r * 2 * 2 ^ i' = r * 2 ^ (i' + 1) by ring]; exact hi
          have := h3 i' hstep
          omega
    · have hle : arg ≤ r := by omega
      exact ⟨0, by simpa using roundUpLoop_stop hle, by simpa using hle, fun i _ => Nat.zero_le i⟩

theorem roundUp_eval_zero : roundUpToNextHighestPowerOfTwo 0 = 1 := by
  rw [roundUpToNextHighestPowerOfTwo, if_neg (by norm_num [maximumArgument, SIZE_MAX]),
    roundUpLoop_stop (by norm_num)]

theorem roundUp_eval_one : roundUpToNextHighestPowerOfTwo 1 = 1 := by
  rw [roundUpToNextHighestPowerOfTwo, if_neg (by norm_num [maximumArgument, SIZE_MAX]),
    roundUpLoop_stop (by norm_num)]

theorem roundUp_eval_two : roundUpToNextHighestPowerOfTwo 2 = 2 := by
  rw [roundUpToNextHighestPowerOfTwo, if_neg (by norm_num [maximumArgument, SIZE_MAX]),
    roundUpLoop_step (by norm_num) (by norm_num), roundUpLoop_stop (by norm_num)]

theorem roundUp_eval_three : roundUpToNextHighestPowerOfTwo 3 = 4 := by
  rw [roundUpToNextHighestPowerOfTwo, if_neg (by norm_num [maximumArgument, SIZE_MAX]),
    roundUpLoop_step (by norm_num) (by norm_num),
    roundUpLoop_step (by norm_num) (by norm_num), roundUpLoop_stop (by norm_num)]

theorem roundUp_eval_four : roundUpToNextHighestPowerOfTwo 4 = 4 := by
  rw [roundUpToNextHighestPowerOfTwo, if_neg (by norm_num [maximumArgument, SIZE_MAX]),
    roundUpLoop_step (by norm_num) (by norm_num),
    roundUpLoop_step (by norm_num) (by norm_num), roundUpLoop_stop (by norm_num)]

theorem roundUp_eval_five : roundUpToNextHighestPowerOfTwo 5 = 8 := by
  rw [roundUpToNextHighestPowerOfTwo, if_neg (by norm_num [maximumArgument, SIZE_MAX]),
    roundUpLoop_step (by norm_num) (by norm_num),
    roundUpLoop_step (by norm_num) (by norm_num),
    roundUpLoop_step (by norm_num) (by norm_num), roundUpLoop_stop (by norm_num)]

theorem integrationStates_length (dt : ℚ) :
    ∀ (s : State) (acc : ℚ) (l : List ℚ), (integrationStates dt s acc l).length = l.length
  | _, _, [] => rfl
  | _, _, _ :: rest => by
    simp [integrationStates, integrationStates_length dt _ _ rest]

theorem integratedPositionSeries_length (env : Collaborators) (a : List ℚ) (r d : ℚ) :
    (integratedPositionSeries env a r d).length = a.length := by
  simp [integratedPositionSeries, numericalIntegration, subtractMean, applyUncertainty,
    integrationStates_length]

theorem extendHeapBuffer_nil_length {α : Type} (junk : Nat → α) (n : Nat) :
    (extendHeapBuffer junk ([] : List α) n).length = n := by
  by_cases h : n ≤ 0
  · simp [extendHeapBuffer, h]; omega
  · simp [extendHeapBuffer, h]

/-- The transform entry point reads exactly the first `N` input samples. -/
theorem fft_take (env : Collaborators) (x : List ℚ) (N : Nat) :
    fft env x N = fft env (x.take N) N := by
  simp [fft, List.take_take]

theorem getD_range_map {β : Type} (f : Nat → β) (n i : Nat) (d : β) (h : i < n) :
    ((List.range n).map f).getD i d = f i := by
  rw [List.getD_eq_getElem?_getD, List.getElem?_map, List.getElem?_range h]
  rfl

theorem getD_map_toEFloat (den : List ℚ) (i : Nat) :
    (den.map toEFloat).getD i 0 = toEFloat (den.getD i 0) := by
  rw [List.getD_eq_getElem?_getD, List.getElem?_map, List.getD_eq_getElem?_getD]
  cases den[i]? with
  | none => rfl
  | some q => rfl

theorem dit2FFT_base {env : Collaborators} {x : List Cx} (h : x.length ≤ 1) :
    dit2FFT env x = x := by
  rw [dit2FFT]
  simp [h]

theorem dit2FFT_pair (env : Collaborators) (a b : Cx) :
    dit2FFT env [a, b] =
      [complexAdd a (complexMultiply (env.cis 0) b),
       complexSubtract a (complexMultiply (env.cis 0) b)] := by
  rw [dit2FFT]
  simp [evens, odds, dit2FFT_base (x := [a]) (by simp), dit2FFT_base (x := [b]) (by simp),
    List.range_succ]

theorem toEFloat_eq_zero_iff (q : ℚ) : toEFloat q = 0 ↔ q = 0 := by
  simp [toEFloat]

theorem untop'_toEFloat (q : ℚ) : WithTop.untop' 0 (toEFloat q) = q := rfl

/-- Concrete run: the integrated position series of the acceleration record
`[4, -12, 0, 72]` with zero resolution and `dt = 1` is `[0, 0, -5, 5]`. -/
theorem positionsA :
    integratedPositionSeries testEnv [4, -12, 0, 72] 0 1 = [0, 0, -5, 5] := by
  norm_num [integratedPositionSeries, applyUncertainty, testEnv, numericalIntegration,
    integrationStates, integrate, subtractMean]

/-- Concrete run: the integrated position series of the all-zero acceleration record
of length 4 is all-zero. -/
theorem positionsB :
    integratedPositionSeries testEnv [0, 0, 0, 0] 0 1 = [0, 0, 0, 0] := by
  norm_num [integratedPositionSeries, applyUncertainty, testEnv, numericalIntegration,
    integrationStates, integrate, subtractMean]

/-- Concrete end-to-end evaluation of `estimateWaveSpectrum` on the acceleration
record `[4, -12, 0, 72]` against a length-2 all-ones RAO. -/
theorem estimateA :
    estimateWaveSpectrum testEnv [] [toEFloat 1, toEFloat 1] [4, -12, 0, 72] 0 1 =
      (none, [toEFloat 0, toEFloat 0]) := by
  simp only [estimateWaveSpectrum]
  rw [if_neg (by norm_num [SIZE_MAX]), positionsA]
  norm_num [extendHeapBuffer, calculatePowerSpectrum, fft, periodogram, roundUp_eval_two,
    dit2FFT_pair, complexAdd, complexSubtract, complexMultiply, complexMagnitude,
    calculateWaveEnergySpectrum, elementWiseDivide, testEnv, toEFloat, List.range_succ]

/-- Concrete end-to-end evaluation of `estimateWaveSpectrum` on the all-zero
acceleration record of length 4 against a length-2 all-ones RAO. -/
theorem estimateB :
    estimateWaveSpectrum testEnv [] [toEFloat 1, toEFloat 1] [0, 0, 0, 0] 0 1 =
      (none, [toEFloat 0, toEFloat 0]) := by
  simp only [estimateWaveSpectrum]
  rw [if_neg (by norm_num [SIZE_MAX]), positionsB]
  norm_num [extendHeapBuffer, calculatePowerSpectrum, fft, periodogram, roundUp_eval_two,
    dit2FFT_pair, complexAdd, complexSubtract, complexMultiply, complexMagnitude,
    calculateWaveEnergySpectrum, elementWiseDivide, testEnv, toEFloat, List.range_succ]

/-! ## Claims -/

/-- Claim C1 (code bug witnessed): `extendHeapBuffer` is a no-op for
`new_length <= buf.length` and preserves the existing prefix, but it does NOT set the
newly-added indices to 0.0: it grows the buffer with `reallocarray`, whose fresh
cells are uninitialized.  Instantiating the fresh-cell contents with the constant 1
and evaluating at the failing input (`buf = [5]` extended to length 2) yields
`[5, 1]`, whose element at index 1 (= the pre-extension length) is not 0, violating
the claimed zero-fill invariant which main.c's own `Zero pad heave buffer` comment
shows is the intent. -/
theorem extendHeapBuffer_fresh_cells :
    extendHeapBuffer (fun _ => (1 : ℚ)) [5] 1 = [5] ∧
    extendHeapBuffer (fun _ => (1 : ℚ)) [5] 2 = [5, 1] ∧
    (extendHeapBuffer (fun _ => (1 : ℚ)) [5] 2).getD 1 0 ≠ 0 := by
  norm_num [extendHeapBuffer, List.range_succ]

/-- Claim C2 (counterexample): the first integration step does NOT use `accel[0]` for
both trapezoid terms.  On the single-sample series `[2]` with `dt = 1` the first
stored speed is `1 * (0 + 2) / 2 = 1`, not `dt * accel[0] = 2`; and on `[2, 0]` with
`dt = 1` the code's `numericalIntegration` output differs from the spec-modelled
`integrateMotionSpec` (which seeds the prior acceleration with `accel[0]`). -/
theorem numericalIntegration_first_step_cex :
    ((integrationStates 1 ⟨0, 0⟩ 0 [2]).headD ⟨0, 0⟩).speed ≠ 1 * 2 ∧
    numericalIntegration [2, 0] 1 ≠ integrateMotionSpec [2, 0] 1 := by
  norm_num [integrationStates, integrate, numericalIntegration, integrateMotionSpec,
    subtractMean]

/-- Claim C2 (amended): for every non-empty acceleration series, the fictitious prior
acceleration `accel[-1]` is 0 (the initializer of `oldAcceleration` in
src/src/utils.c:197), so the first velocity increment is `dt * accel[0] / 2` and the
first position value is `dt² * accel[0] / 4`. -/
theorem numericalIntegration_first_step (a : ℚ) (rest : List ℚ) (dt : ℚ) :
    ((integrationStates dt ⟨0, 0⟩ 0 (a :: rest)).headD ⟨0, 0⟩).speed = dt * a / 2 ∧
    ((integrationStates dt ⟨0, 0⟩ 0 (a :: rest)).headD ⟨0, 0⟩).position =
      dt * dt * a / 4 := by
  constructor
  · simp [integrationStates, integrate]
  · simp [integrationStates, integrate]
    ring

/-- Claim C3 (counterexample): samples of the integrated position series at indices
`>= len(rao)` do NOT contribute to the power spectrum divided by the RAO.  The
acceleration records `[4, -12, 0, 72]` and `[0, 0, 0, 0]` (zero uncertainty,
`dt = 1`) produce position series `[0, 0, -5, 5]` and `[0, 0, 0, 0]`, which differ at
index 2 `>= len(rao) = 2`, yet `estimateWaveSpectrum` returns identical wave spectra
for them: the spectral stage reads only `heaveSpectrumBuffer.size = len(rao)`
position samples. -/
theorem estimateWaveSpectrum_ignores_tail :
    (integratedPositionSeries testEnv [4, -12, 0, 72] 0 1).getD 2 0 ≠
      (integratedPositionSeries testEnv [0, 0, 0, 0] 0 1).getD 2 0 ∧
    ([toEFloat 1, toEFloat 1] : List EFloat).length ≤ 2 ∧
    estimateWaveSpectrum testEnv [] [toEFloat 1, toEFloat 1] [4, -12, 0, 72] 0 1 =
      estimateWaveSpectrum testEnv [] [toEFloat 1, toEFloat 1] [0, 0, 0, 0] 0 1 := by
  refine ⟨?_, by norm_num, ?_⟩
  · rw [positionsA, positionsB]; norm_num
  · rw [estimateA, estimateB]

/-- Claim C3 (amended): the position series is extended to `len(rao)` when shorter
(per `extendHeapBuffer`, with reallocarray-filled tail, cf. C1), but when it is at
least `len(rao)` long the estimate depends only on its first `len(rao)` samples: the
power spectrum is computed over `N = heaveSpectrumBuffer.size = len(rao)` samples, so
the series is effectively truncated, never read in full. -/
theorem estimateWaveSpectrum_truncation (env : Collaborators)
    (waveBuf rao : List EFloat) (accel accel' : List ℚ) (res dt : ℚ)
    (hlen : ¬ accel.length > SIZE_MAX / 2) (hlen' : ¬ accel'.length > SIZE_MAX / 2)
    (hge : rao.length ≤ (integratedPositionSeries env accel res dt).length)
    (hge' : rao.length ≤ (integratedPositionSeries env accel' res dt).length)
    (htake : (integratedPositionSeries env accel res dt).take rao.length =
      (integratedPositionSeries env accel' res dt).take rao.length) :
    estimateWaveSpectrum env waveBuf rao accel res dt =
      estimateWaveSpectrum env waveBuf rao accel' res dt := by
  have hcalc :
      calculatePowerSpectrum env (integratedPositionSeries env accel res dt) rao.length =
        calculatePowerSpectrum env (integratedPositionSeries env accel' res dt)
          rao.length := by
    simp only [calculatePowerSpectrum]
    rw [fft_take, htake, ← fft_take]
  simp only [estimateWaveSpectrum]
  rw [if_neg hlen, if_neg hlen', if_neg (by omega), if_neg (by omega),
    extendHeapBuffer_nil_length, hcalc]

theorem estimateWaveSpectrum_truncation_witness :
    (¬ ([4, -12, 0, 72] : List ℚ).length > SIZE_MAX / 2) ∧
    estimateWaveSpectrum testEnv [] [toEFloat 1, toEFloat 1] [4, -12, 0, 72] 0 1 =
      estimateWaveSpectrum testEnv [] [toEFloat 1, toEFloat 1] [0, 0, 0, 0] 0 1 :=
  ⟨by norm_num [SIZE_MAX],
   estimateWaveSpectrum_truncation testEnv [] [toEFloat 1, toEFloat 1] [4, -12, 0, 72]
     [0, 0, 0, 0] 0 1 (by norm_num [SIZE_MAX]) (by norm_num [SIZE_MAX])
     (by simp [positionsA]) (by simp [positionsB]) (by simp [positionsA, positionsB])⟩

/-- Claim C4: `elementWiseDivide` yields `+INFINITY` (`⊤`) at every bin whose
denominator is 0 and the plain quotient elsewhere; in particular against an all-zero
denominator every bin is `+INFINITY`. -/
theorem elementWiseDivide_spec (num den : List ℚ) (n : Nat) :
    (∀ i, i < n →
      (elementWiseDivide num (den.map toEFloat) n).getD i 0 =
        if den.getD i 0 = 0 then (⊤ : EFloat)
        else toEFloat (num.getD i 0 / den.getD i 0)) ∧
    elementWiseDivide num (List.replicate n (toEFloat 0)) n =
      List.replicate n (⊤ : EFloat) := by
  constructor
  · intro i hi
    rw [elementWiseDivide, getD_range_map _ _ _ _ hi, getD_map_toEFloat]
    simp only [toEFloat_eq_zero_iff, untop'_toEFloat]
  · rw [elementWiseDivide]
    have hz : ∀ i, i ∈ List.range n → (List.replicate n (toEFloat 0)).getD i 0 = 0 := by
      intro i hi
      rw [List.getD_eq_getElem?_getD, List.getElem?_replicate,
        if_pos (List.mem_range.mp hi)]
      rfl
    calc (List.range n).map (fun i =>
            if (List.replicate n (toEFloat 0)).getD i 0 = 0 then (⊤ : EFloat)
            else toEFloat (num.getD i 0 /
              WithTop.untop' 0 ((List.replicate n (toEFloat 0)).getD i 0))) =
          (List.range n).map (fun _ => (⊤ : EFloat)) :=
            List.map_congr_left (fun i hi => by rw [if_pos (hz i hi)])
      _ = List.replicate n (⊤ : EFloat) := by
            rw [List.map_const', List.length_range]

theorem elementWiseDivide_spec_witness :
    ((0 : Nat) < 2) ∧
    (elementWiseDivide [1, 2] ([2, 0].map toEFloat) 2).getD 0 0 =
      (if ([2, (0 : ℚ)] : List ℚ).getD 0 0 = 0 then (⊤ : EFloat)
       else toEFloat (([1, (2 : ℚ)] : List ℚ).getD 0 0 / ([2, (0 : ℚ)] : List ℚ).getD 0 0)) :=
  ⟨by norm_num, (elementWiseDivide_spec [1, 2] [2, 0] 2).1 0 (by norm_num)⟩

/-- Claim C5: `calculatePowerSpectrum` on a series of length `N` (with
`roundUpToNextHighestPowerOfTwo N` defined, i.e. nonzero) returns exactly
`roundUpToNextHighestPowerOfTwo N` bins, the `i`-th being the square of the `i`-th
magnitude produced by the transform `fft` of the raw input — no normalization by `N`
and no window applied. -/
theorem calculatePowerSpectrum_spec (env : Collaborators) (x : List ℚ)
    (_h : roundUpToNextHighestPowerOfTwo x.length ≠ 0) :
    (calculatePowerSpectrum env x x.length).length =
      roundUpToNextHighestPowerOfTwo x.length ∧
    ∀ i, i < roundUpToNextHighestPowerOfTwo x.length →
      (calculatePowerSpectrum env x x.length).getD i 0 =
        (fft env x x.length).getD i 0 * (fft env x x.length).getD i 0 := by
  constructor
  · simp [calculatePowerSpectrum, periodogram]
  · intro i hi
    simp only [calculatePowerSpectrum, periodogram]
    rw [getD_range_map _ _ _ _ hi]

theorem calculatePowerSpectrum_spec_witness :
    roundUpToNextHighestPowerOfTwo ([1, 2, 3] : List ℚ).length ≠ 0 ∧
    ((calculatePowerSpectrum testEnv [1, 2, 3] ([1, 2, 3] : List ℚ).length).length =
        roundUpToNextHighestPowerOfTwo ([1, 2, 3] : List ℚ).length ∧
      ∀ i, i < roundUpToNextHighestPowerOfTwo ([1, 2, 3] : List ℚ).length →
        (calculatePowerSpectrum testEnv [1, 2, 3] ([1, 2, 3] : List ℚ).length).getD i 0 =
          (fft testEnv [1, 2, 3] ([1, 2, 3] : List ℚ).length).getD i 0 *
            (fft testEnv [1, 2, 3] ([1, 2, 3] : List ℚ).length).getD i 0) :=
  ⟨by simp [roundUp_eval_three],
   calculatePowerSpectrum_spec testEnv [1, 2, 3] (by simp [roundUp_eval_three])⟩

/-- Claim C6: for `1 <= n <= SIZE_MAX / 2`, `roundUpToNextHighestPowerOfTwo n` is the
smallest power of two `>= n`; for `n` above `SIZE_MAX / 2` it is the overflow
sentinel 0; and `roundUpToNextHighestPowerOfTwo 1 = 1`,
`roundUpToNextHighestPowerOfTwo 5 = 8`. -/
theorem roundUpToNextHighestPowerOfTwo_correct :
    (∀ n, 0 < n → n ≤ SIZE_MAX / 2 →
      ∃ k, roundUpToNextHighestPowerOfTwo n = 2 ^ k ∧ n ≤ 2 ^ k ∧
        ∀ m, n ≤ 2 ^ m → 2 ^ k ≤ 2 ^ m) ∧
    (∀ n, SIZE_MAX / 2 < n → roundUpToNextHighestPowerOfTwo n = 0) ∧
    roundUpToNextHighestPowerOfTwo 1 = 1 ∧
    roundUpToNextHighestPowerOfTwo 5 = 8 := by
  refine ⟨?_, ?_, roundUp_eval_one, roundUp_eval_five⟩
  · intro n hn hle
    have hlt : ¬ n ≥ maximumArgument := by
      simp only [maximumArgument, SIZE_MAX] at *
      omega
    obtain ⟨j, h1, h2, h3⟩ := roundUpLoop_spec n n 1 (by omega) (by omega)
    refine ⟨j, ?_, by simpa using h2, ?_⟩
    · rw [roundUpToNextHighestPowerOfTwo, if_neg hlt, h1]; ring
    · intro m hm
      exact Nat.pow_le_pow_right (by omega) (h3 m (by simpa using hm))
  · intro n hgt
    have hge : n ≥ maximumArgument := by
      simp only [maximumArgument, SIZE_MAX] at *
      omega
    rw [roundUpToNextHighestPowerOfTwo, if_pos hge]

theorem roundUpToNextHighestPowerOfTwo_correct_witness :
    (0 < 5 ∧ 5 ≤ SIZE_MAX / 2) ∧
    (∃ k, roundUpToNextHighestPowerOfTwo 5 = 2 ^ k ∧ 5 ≤ 2 ^ k ∧
      ∀ m, 5 ≤ 2 ^ m → 2 ^ k ≤ 2 ^ m) :=
  ⟨⟨by norm_num, by norm_num [SIZE_MAX]⟩,
   roundUpToNextHighestPowerOfTwo_correct.1 5 (by norm_num) (by norm_num [SIZE_MAX])⟩

/-- Claim C7 (counterexample): `roundUpToNextHighestPowerOfTwo 0` does NOT return the
overflow sentinel 0: the argument-size check does not fire and the doubling loop
never runs, so the initial `returnValue = 1` is returned. -/
theorem roundUp_zero_not_sentinel : roundUpToNextHighestPowerOfTwo 0 ≠ 0 := by
  rw [roundUp_eval_zero]
  norm_num

/-- Claim C7 (amended): `roundUpToNextHighestPowerOfTwo 0 = 1` — the zero argument is
not rejected; only arguments of at least `SIZE_MAX / 2 + 1` yield the sentinel. -/
theorem roundUp_zero_returns_one : roundUpToNextHighestPowerOfTwo 0 = 1 :=
  roundUp_eval_zero

/-- Claim C8: `characteriseRAO` on series of unequal lengths fails with the
length-mismatch error (reporting both lengths) and returns the untouched `RAOBuffer`:
the check precedes `spectrumBufferSize` computation, every `extendHeapBuffer` call
and all spectral work, for every collaborator instantiation. -/
theorem characteriseRAO_lengthMismatch (env : Collaborators) (rao : List EFloat)
    (heave elev : List ℚ) (u1 u2 dtp : ℚ)
    (h : heave.length ≠ elev.length) :
    characteriseRAO env rao heave elev u1 u2 dtp =
      (some (.lengthMismatch heave.length elev.length), rao) := by
  simp only [characteriseRAO]
  rw [if_pos h]

theorem characteriseRAO_lengthMismatch_witness :
    ([1, 2, 1, 0] : List ℚ).length ≠ ([1/2, 1, 1/2] : List ℚ).length ∧
    characteriseRAO testEnv [] [1, 2, 1, 0] [1/2, 1, 1/2] 0 0 1 =
      (some (.lengthMismatch ([1, 2, 1, 0] : List ℚ).length
        ([1/2, 1, 1/2] : List ℚ).length), []) :=
  ⟨by norm_num,
   characteriseRAO_lengthMismatch testEnv [] [1, 2, 1, 0] [1/2, 1, 1/2] 0 0 1
     (by norm_num)⟩

/-- Claim C9: `estimateWaveSpectrum` on an acceleration series longer than
`SIZE_MAX / 2` fails with the sizing error (reporting the found length) and returns
the untouched output buffer, for every collaborator instantiation — so no
uncertainty perturbation, integration or transform work has touched the data. -/
theorem estimateWaveSpectrum_oversized (env : Collaborators)
    (waveBuf rao : List EFloat) (accel : List ℚ) (res dt : ℚ)
    (h : accel.length > SIZE_MAX / 2) :
    estimateWaveSpectrum env waveBuf rao accel res dt =
      (some (.sizeOverflow accel.length), waveBuf) := by
  simp only [estimateWaveSpectrum]
  rw [if_pos h]

theorem estimateWaveSpectrum_oversized_witness :
    (List.replicate (2 ^ 63) (0 : ℚ)).length > SIZE_MAX / 2 ∧
    estimateWaveSpectrum testEnv [] [] (List.replicate (2 ^ 63) (0 : ℚ)) 0 1 =
      (some (.sizeOverflow (List.replicate (2 ^ 63) (0 : ℚ)).length), []) :=
  ⟨by rw [List.length_replicate]; norm_num [SIZE_MAX],
   estimateWaveSpectrum_oversized testEnv [] [] (List.replicate (2 ^ 63) (0 : ℚ)) 0 1
     (by rw [List.length_replicate]; norm_num [SIZE_MAX])⟩

/-- Claim C10: the power spectrum of the empty series does not fail:
`roundUpToNextHighestPowerOfTwo 0 = 1`, and (allocation succeeding, with
`sqrtf 0 = 0`) `calculatePowerSpectrum` returns the one-element spectrum `[0]` —
no SizeOverflow is reported. -/
theorem calculatePowerSpectrum_empty (env : Collaborators) (h : env.sqrtQ 0 = 0) :
    roundUpToNextHighestPowerOfTwo 0 = 1 ∧
    calculatePowerSpectrum env [] 0 = [0] := by
  refine ⟨roundUp_eval_zero, ?_⟩
  simp [calculatePowerSpectrum, fft, periodogram, roundUp_eval_zero, complexMagnitude,
    h, dit2FFT_base, List.range_succ]

theorem calculatePowerSpectrum_empty_witness :
    testEnv.sqrtQ 0 = 0 ∧
    (roundUpToNextHighestPowerOfTwo 0 = 1 ∧
      calculatePowerSpectrum testEnv [] 0 = [0]) :=
  ⟨rfl, calculatePowerSpectrum_empty testEnv rfl⟩

end WaveDemo
